import Mathlib

/-!
Verification of the token-estimation core of kiro.rs
(src/src/anthropic/token.rs).

The program is a pure function over a sequence of Unicode scalar
values.  We embed scalar values as `Nat` (Rust `char` carries a scalar
value; none of the checked ranges touches the surrogate gap, so the
embedding over all of `Nat` is faithful on the `char` domain), strings
as `List Nat`, and the `u64` accumulator both as an idealized `Nat`
sum (`totalUnits`) and as an exact wrap-around model with explicit
`% 2 ^ 64` (`charUnitsU64`, `count_tokens_u64`) for the overflow
analysis.
-/

/-- Embedding of `is_east_asian_char` (token.rs lines 24–65): the
`matches!` over nineteen inclusive scalar-value ranges, listed in the
source's order. -/
def is_east_asian_char (c : Nat) : Bool :=
  (0x4E00 ≤ c && c ≤ 0x9FFF) ||
  (0x3400 ≤ c && c ≤ 0x4DBF) ||
  (0x2E80 ≤ c && c ≤ 0x2EFF) ||
  (0x2F00 ≤ c && c ≤ 0x2FDF) ||
  (0x2FF0 ≤ c && c ≤ 0x2FFF) ||
  (0x20000 ≤ c && c ≤ 0x2A6DF) ||
  (0x2A700 ≤ c && c ≤ 0x2B73F) ||
  (0x2B740 ≤ c && c ≤ 0x2B81F) ||
  (0x2B820 ≤ c && c ≤ 0x2CEAF) ||
  (0x2CEB0 ≤ c && c ≤ 0x2EBEF) ||
  (0x2F800 ≤ c && c ≤ 0x2FA1F) ||
  (0x30000 ≤ c && c ≤ 0x3134F) ||
  (0x31350 ≤ c && c ≤ 0x323AF) ||
  (0x3040 ≤ c && c ≤ 0x309F) ||
  (0x30A0 ≤ c && c ≤ 0x30FF) ||
  (0xAC00 ≤ c && c ≤ 0xD7AF) ||
  (0x1100 ≤ c && c ≤ 0x11FF) ||
  (0xFF00 ≤ c && c ≤ 0xFFEF) ||
  (0x3000 ≤ c && c ≤ 0x303F)

/-- Per-character weight of token.rs line 96: 7 for an East Asian
scalar value, 2 otherwise. -/
def charWeight (c : Nat) : Nat :=
  if is_east_asian_char c then 7 else 2

/-- Idealized accumulated unit total (token.rs lines 94–97):
`text.chars().map(weight).sum()` read as unbounded natural-number
arithmetic. -/
def totalUnits (s : List Nat) : Nat :=
  (s.map charWeight).sum

/-- Embedding of `count_tokens` (token.rs lines 91–101) in unbounded
arithmetic: `(char_units + 3) / 6` with floor division. -/
def count_tokens (s : List Nat) : Nat :=
  (totalUnits s + 3) / 6

/-- The `u64` modulus. -/
def U64LIM : Nat := 2 ^ 64

/-- Exact model of the `u64` accumulation of token.rs lines 94–97:
every addition is reduced modulo `2 ^ 64`, as Rust release-mode `u64`
addition wraps. -/
def charUnitsU64 (s : List Nat) : Nat :=
  s.foldl (fun acc c => (acc + charWeight c) % U64LIM) 0

/-- Exact model of `count_tokens` over `u64` (token.rs lines 91–101),
with the final `+ 3` also performed modulo `2 ^ 64`. -/
def count_tokens_u64 (s : List Nat) : Nat :=
  ((charUnitsU64 s + 3) % U64LIM) / 6

/-- The nineteen inclusive ranges exactly as tabulated in section 4.1
of the specification, in the table's order. -/
def specRanges : List (Nat × Nat) :=
  [(0x2E80, 0x2EFF), (0x2F00, 0x2FDF), (0x2FF0, 0x2FFF),
   (0x3000, 0x303F), (0x3040, 0x309F), (0x30A0, 0x30FF),
   (0x3400, 0x4DBF), (0x4E00, 0x9FFF), (0xAC00, 0xD7AF),
   (0x1100, 0x11FF), (0xFF00, 0xFFEF), (0x20000, 0x2A6DF),
   (0x2A700, 0x2B73F), (0x2B740, 0x2B81F), (0x2B820, 0x2CEAF),
   (0x2CEB0, 0x2EBEF), (0x2F800, 0x2FA1F), (0x30000, 0x3134F),
   (0x31350, 0x323AF)]

/-- Spec-side classifier: membership in at least one of the
specification's ranges. -/
def inSpecRanges (c : Nat) : Bool :=
  specRanges.any (fun r => r.1 ≤ c && c ≤ r.2)

/-- Spec-side reading of steps 2–3 of the Counter algorithm: the sum,
over the scalar values in order, of the weight 7 or 2 chosen by the
classifier. -/
def sumWeights (s : List Nat) : Nat :=
  s.foldl (fun acc c => acc + (if is_east_asian_char c then 7 else 2)) 0

theorem totalUnits_nil : totalUnits [] = 0 := rfl

theorem totalUnits_cons (c : Nat) (s : List Nat) :
    totalUnits (c :: s) = charWeight c + totalUnits s := by
  simp [totalUnits]

theorem totalUnits_append (s t : List Nat) :
    totalUnits (s ++ t) = totalUnits s + totalUnits t := by
  simp [totalUnits]

theorem charWeight_ge_two (c : Nat) : 2 ≤ charWeight c := by
  unfold charWeight; split <;> omega

theorem charWeight_le_seven (c : Nat) : charWeight c ≤ 7 := by
  unfold charWeight; split <;> omega

/-- C2: the classifier agrees with the specification's range table on
every scalar value: `is_east_asian_char c` is true exactly when `c`
lies in one of the nineteen inclusive ranges. -/
theorem is_east_asian_char_iff_spec_ranges (c : Nat) :
    is_east_asian_char c = true ↔ inSpecRanges c = true := by
  simp only [is_east_asian_char, inSpecRanges, specRanges, List.any_cons,
    List.any_nil, Bool.or_eq_true, Bool.and_eq_true, decide_eq_true_eq,
    Bool.false_eq_true, or_false]
  omega

theorem sumWeights_eq_totalUnits (s : List Nat) :
    sumWeights s = totalUnits s := by
  have h : ∀ a : Nat,
      s.foldl (fun acc c => acc + (if is_east_asian_char c then 7 else 2)) a
        = a + totalUnits s := by
    induction s with
    | nil => intro a; simp [totalUnits]
    | cons c t ih =>
        intro a
        simp only [List.foldl_cons, totalUnits_cons, ih, charWeight]
        omega
  simpa using h 0

/-- C1: for every input, `count_tokens` returns `(total + 3) / 6`
under floor division, where `total` accumulates, over the scalar
values of the input, the weight 7 when `is_east_asian_char` holds and
2 otherwise. -/
theorem count_tokens_eq_weighted_sum_formula (s : List Nat) :
    count_tokens s = (sumWeights s + 3) / 6 := by
  rw [sumWeights_eq_totalUnits]; rfl

/-- C3: the literal scenarios of the specification, with each string
written as its sequence of Unicode scalar values. -/
theorem count_tokens_literal_scenarios :
    count_tokens [] = 0 ∧
    count_tokens [0x61] = 0 ∧
    count_tokens [0x61, 0x62] = 1 ∧
    count_tokens [0x61, 0x62, 0x63] = 1 ∧
    count_tokens [0x61, 0x62, 0x63, 0x64] = 1 ∧
    count_tokens [0x61, 0x62, 0x63, 0x64, 0x65] = 2 ∧
    count_tokens [0x61, 0x62, 0x63, 0x64, 0x65, 0x66] = 2 ∧
    count_tokens [0x4F60] = 1 ∧
    count_tokens [0x4F60, 0x597D] = 2 ∧
    count_tokens [0x4F60, 0x597D, 0x4E16] = 4 ∧
    count_tokens [0x4F60, 0x597D, 0x61, 0x62, 0x63] = 3 ∧
    count_tokens [0x61, 0x4F60] = 2 ∧
    count_tokens [0x3042] = 1 ∧
    count_tokens [0x30A2, 0x30A4] = 2 ∧
    count_tokens [0xC548] = 1 ∧
    count_tokens [0xC548, 0xB155] = 2 ∧
    count_tokens [0xFF21] = 1 ∧
    count_tokens [0xFF21, 0xFF22] = 2 ∧
    count_tokens [0x3002] = 1 ∧
    count_tokens [0x3002, 0x3001] = 2 := by
  decide

/-- C4: the result is never negative, and it is zero exactly when the
input is empty or its accumulated weight total is below 3 scaled
units. -/
theorem count_tokens_nonneg_and_zero_iff (s : List Nat) :
    0 ≤ count_tokens s ∧
      (count_tokens s = 0 ↔ s = [] ∨ totalUnits s < 3) := by
  refine ⟨Nat.zero_le _, ?_⟩
  unfold count_tokens
  constructor
  · intro h
    right
    omega
  · rintro (rfl | h)
    · rfl
    · omega

/-- C5: appending one scalar value never decreases the token count. -/
theorem count_tokens_monotone_append (s : List Nat) (c : Nat) :
    count_tokens s ≤ count_tokens (s ++ [c]) := by
  unfold count_tokens
  rw [totalUnits_append]
  exact Nat.div_le_div_right (by omega)

/-- C6: the token count is invariant under permutation of the input's
scalar values; it depends only on the total weighted units. -/
theorem count_tokens_perm_invariant (s t : List Nat) (h : s.Perm t) :
    count_tokens t = count_tokens s := by
  unfold count_tokens totalUnits
  rw [List.Perm.sum_eq (List.Perm.map charWeight h)]

/-- C6 witness: transposing the two scalar values of "a你" leaves the
count unchanged. -/
theorem count_tokens_perm_invariant_witness :
    count_tokens [0x4F60, 0x61] = count_tokens [0x61, 0x4F60] :=
  count_tokens_perm_invariant [0x61, 0x4F60] [0x4F60, 0x61] (by decide)

theorem totalUnits_of_all_east_asian (s : List Nat)
    (h : ∀ c ∈ s, is_east_asian_char c = true) :
    totalUnits s = 7 * s.length := by
  induction s with
  | nil => rfl
  | cons c t ih =>
      have hc := h c (List.mem_cons_self c t)
      have ht := ih (fun d hd => h d (List.mem_cons_of_mem c hd))
      rw [totalUnits_cons, ht, List.length_cons, charWeight, hc]
      simp; omega

theorem totalUnits_of_no_east_asian (s : List Nat)
    (h : ∀ c ∈ s, is_east_asian_char c = false) :
    totalUnits s = 2 * s.length := by
  induction s with
  | nil => rfl
  | cons c t ih =>
      have hc := h c (List.mem_cons_self c t)
      have ht := ih (fun d hd => h d (List.mem_cons_of_mem c hd))
      rw [totalUnits_cons, ht, List.length_cons, charWeight, hc]
      simp; omega

/-- C7: on an input whose scalar values are all East Asian,
`count_tokens` returns `(7n + 3) / 6` for `n` the length; on an input
with no East Asian scalar value it returns `(2n + 3) / 6`. -/
theorem count_tokens_uniform_input (s : List Nat) :
    ((∀ c ∈ s, is_east_asian_char c = true) →
      count_tokens s = (7 * s.length + 3) / 6) ∧
    ((∀ c ∈ s, is_east_asian_char c = false) →
      count_tokens s = (2 * s.length + 3) / 6) := by
  constructor
  · intro h
    unfold count_tokens
    rw [totalUnits_of_all_east_asian s h]
  · intro h
    unfold count_tokens
    rw [totalUnits_of_no_east_asian s h]

/-- C7 witness: two East Asian scalar values give `(7·2 + 3) / 6` and
three ASCII scalar values give `(2·3 + 3) / 6`. -/
theorem count_tokens_uniform_input_witness :
    count_tokens [0x4F60, 0x597D]
        = (7 * ([0x4F60, 0x597D] : List Nat).length + 3) / 6 ∧
    count_tokens [0x61, 0x62, 0x63]
        = (2 * ([0x61, 0x62, 0x63] : List Nat).length + 3) / 6 :=
  ⟨(count_tokens_uniform_input [0x4F60, 0x597D]).1 (by decide),
   (count_tokens_uniform_input [0x61, 0x62, 0x63]).2 (by decide)⟩

/-- C8: for every natural `total`, `(total + 3) / 6` under floor
division is the round-half-up of `total / 6` — the integer `r` with
`r - 1/2 ≤ total/6 < r + 1/2`, stated after clearing denominators as
`12r ≤ 2·total + 6` and `2·total < 12r + 6` — and hence the result of
`count_tokens` is the round-half-up of its unit total divided by 6. -/
theorem count_tokens_round_half_up :
    (∀ total : Nat,
      12 * ((total + 3) / 6) ≤ 2 * total + 6 ∧
      2 * total < 12 * ((total + 3) / 6) + 6) ∧
    (∀ s : List Nat,
      count_tokens s = (totalUnits s + 3) / 6 ∧
      12 * count_tokens s ≤ 2 * totalUnits s + 6 ∧
      2 * totalUnits s < 12 * count_tokens s + 6) := by
  constructor
  · intro total
    omega
  · intro s
    unfold count_tokens
    refine ⟨rfl, ?_, ?_⟩ <;> omega

theorem charUnitsU64_foldl_eq (s : List Nat) :
    ∀ a : Nat, a + totalUnits s < U64LIM →
      s.foldl (fun acc c => (acc + charWeight c) % U64LIM) a
        = a + totalUnits s := by
  induction s with
  | nil => intro a _; simp [totalUnits]
  | cons c t ih =>
      intro a h
      rw [totalUnits_cons] at h
      simp only [List.foldl_cons]
      rw [Nat.mod_eq_of_lt (by omega), ih (a + charWeight c) (by omega),
        totalUnits_cons]
      omega

theorem totalUnits_le_seven_mul (s : List Nat) :
    totalUnits s ≤ 7 * s.length := by
  induction s with
  | nil => simp [totalUnits]
  | cons c t ih =>
      have := charWeight_le_seven c
      rw [totalUnits_cons, List.length_cons]
      omega

theorem totalUnits_ge_two_mul (s : List Nat) :
    2 * s.length ≤ totalUnits s := by
  induction s with
  | nil => simp [totalUnits]
  | cons c t ih =>
      have := charWeight_ge_two c
      rw [totalUnits_cons, List.length_cons]
      omega

/-- C9: the accumulator is a 64-bit unsigned integer (modeled exactly
by `charUnitsU64` and `count_tokens_u64`, which wrap modulo `2 ^ 64`),
and on every input of at most `(2 ^ 64 - 4) / 7` scalar values neither
the weight summation nor the final `+ 3` wraps, so the `u64`
computation returns the exact mathematical value `(total + 3) / 6`. -/
theorem count_tokens_u64_no_overflow (s : List Nat)
    (h : s.length ≤ (2 ^ 64 - 4) / 7) :
    charUnitsU64 s = totalUnits s ∧
    totalUnits s + 3 < 2 ^ 64 ∧
    count_tokens_u64 s = (totalUnits s + 3) / 6 := by
  have hle : totalUnits s ≤ 7 * s.length := totalUnits_le_seven_mul s
  have hlt : totalUnits s + 3 < 2 ^ 64 := by omega
  have hcu : charUnitsU64 s = totalUnits s := by
    have hfold := charUnitsU64_foldl_eq s 0 (by simp only [U64LIM]; omega)
    simpa [charUnitsU64] using hfold
  refine ⟨hcu, hlt, ?_⟩
  unfold count_tokens_u64
  rw [hcu, Nat.mod_eq_of_lt (by simp only [U64LIM]; omega)]

/-- C9 witness: a one-character input is under the bound and the `u64`
model returns the exact value there. -/
theorem count_tokens_u64_no_overflow_witness :
    ([0x4F60] : List Nat).length ≤ (2 ^ 64 - 4) / 7 ∧
    count_tokens_u64 [0x4F60] = (totalUnits [0x4F60] + 3) / 6 :=
  ⟨by decide, (count_tokens_u64_no_overflow [0x4F60] (by decide)).2.2⟩

/-- C10: for an input of `n` scalar values the token count lies
between `(2n + 3) / 6` and `(7n + 3) / 6`, and any input of at least
two scalar values yields at least one token. -/
theorem count_tokens_length_bounds (s : List Nat) :
    (2 * s.length + 3) / 6 ≤ count_tokens s ∧
    count_tokens s ≤ (7 * s.length + 3) / 6 ∧
    (2 ≤ s.length → 1 ≤ count_tokens s) := by
  have h1 := totalUnits_ge_two_mul s
  have h2 := totalUnits_le_seven_mul s
  unfold count_tokens
  refine ⟨?_, ?_, ?_⟩
  · exact Nat.div_le_div_right (by omega)
  · exact Nat.div_le_div_right (by omega)
  · intro hlen
    omega

/-- C10 witness: the bounds and the at-least-one-token consequence at
the two-character input "ab". -/
theorem count_tokens_length_bounds_witness :
    (2 * ([0x61, 0x62] : List Nat).length + 3) / 6
        ≤ count_tokens [0x61, 0x62] ∧
    count_tokens [0x61, 0x62]
        ≤ (7 * ([0x61, 0x62] : List Nat).length + 3) / 6 ∧
    1 ≤ count_tokens [0x61, 0x62] :=
  ⟨(count_tokens_length_bounds [0x61, 0x62]).1,
   (count_tokens_length_bounds [0x61, 0x62]).2.1,
   (count_tokens_length_bounds [0x61, 0x62]).2.2 (by decide)⟩
